import Mathlib

/-!
Verification of the mapperx-ts core mapping engine.

This file gives a shallow embedding of the runtime behaviour of the engine in
src/core.ts (the synchronous mapper, its batch runner) and of the async module
(mapperxAsync and its batch runner), together with theorems about the embedded
definitions.

Modelling conventions:
- JavaScript runtime values are modelled by the inductive type JVal; objects
  are association lists of string keys in insertion order, which is the order
  Object.keys iterates for string keys.  Prototype chains, symbols, arrays and
  floating point are not modelled; none of the properties below depend on them.
- Validators, transforms and computed functions are caller-supplied functions;
  a call that throws is modelled by returning Except.error with the message of
  the thrown error.  Asynchronous functions that return already-settled
  (non-thenable or resolved) values are modelled the same way, the await of a
  non-thenable being the identity.
- Throwing a MapperxError is modelled by Except.error carrying the structure
  MapperxError (field, sourceField, message of the cause, sourceValue).
- console.warn is an I/O side channel and does not enter the returned value;
  the strict-mode computation of unreferenced root fields (core.ts lines
  410-437) is modelled by the function strictExtraFields.
-/

-- ===========================================================================
-- JavaScript values
-- ===========================================================================

/-- A JavaScript runtime value: undefined, null, string, number, boolean, or
an object given as an association list of own enumerable properties in
insertion order. -/
inductive JVal where
  | undefined
  | null
  | str (s : String)
  | num (n : Int)
  | bool (b : Bool)
  | obj (fields : List (String × JVal))
deriving Inhabited

/-- Test for the value undefined (JavaScript === undefined). -/
def JVal.isUndefined : JVal → Bool
  | .undefined => true
  | _ => false

/-- Test for the value null (JavaScript === null). -/
def JVal.isNull : JVal → Bool
  | .null => true
  | _ => false

/-- Test for the literal boolean false (JavaScript === false). -/
def JVal.isFalseLit : JVal → Bool
  | .bool false => true
  | _ => false

/-- JavaScript truthiness of a value (NaN is not modelled). -/
def truthy : JVal → Bool
  | .undefined => false
  | .null => false
  | .bool b => b
  | .num n => n != 0
  | .str s => s != ""
  | .obj _ => true

/-- Own-property lookup in an object's field list; none when the key is
absent.  Models both the membership test (part in current) and the read
current[part] on plain objects. -/
def jGet : List (String × JVal) → String → Option JVal
  | [], _ => none
  | (k, v) :: rest, key => if k = key then some v else jGet rest key

/-- Property assignment out[key] = v: overwrites in place when the key exists,
otherwise appends, preserving JavaScript insertion order of string keys. -/
def setKey : List (String × JVal) → String → JVal → List (String × JVal)
  | [], k, v => [(k, v)]
  | (k', v') :: rest, k, v =>
      if k' = k then (k', v) :: rest else (k', v') :: setKey rest k v

/-- Direct property read api[name] as used by the direct-mapping branch: on an
object it yields the property value or undefined; primitive receivers autobox
and (for the names appearing in schemas) yield undefined. -/
def jIndex : JVal → String → JVal
  | .obj fs, k => (jGet fs k).getD .undefined
  | _, _ => .undefined

-- ===========================================================================
-- Path resolver (core.ts getDeepValue, lines 189-204; identical copy in the
-- async module)
-- ===========================================================================

/-- The JavaScript string split path.split(".") on the dot separator,
implemented over the character list so that it computes by reduction.
Splitting the empty string yields a single empty segment, as in JavaScript. -/
def splitDotAux : List Char → List Char → List String
  | [], cur => [String.mk cur.reverse]
  | c :: rest, cur =>
      if c = '.' then String.mk cur.reverse :: splitDotAux rest []
      else splitDotAux rest (c :: cur)

/-- Split a path string on the dot separator. -/
def splitDot (s : String) : List String :=
  splitDotAux s.data []

/-- The loop of getDeepValue.  For each segment: if the current node is null
or undefined (JavaScript current == null) the result is undefined; on an
object, a missing segment yields undefined, a present one moves to its value.
On a non-null primitive the JavaScript expression (part in current) throws a
TypeError, modelled by Except.error. -/
def getDeepValueAux : JVal → List String → Except String JVal
  | cur, [] => .ok cur
  | .null, _ :: _ => .ok .undefined
  | .undefined, _ :: _ => .ok .undefined
  | .obj fs, p :: rest =>
      match jGet fs p with
      | none => .ok .undefined
      | some v => getDeepValueAux v rest
  | .str _, _ :: _ => .error "TypeError: Cannot use in operator on a primitive"
  | .num _, _ :: _ => .error "TypeError: Cannot use in operator on a primitive"
  | .bool _, _ :: _ => .error "TypeError: Cannot use in operator on a primitive"

/-- getDeepValue obj path: splits the path on dots and walks the object. -/
def getDeepValue (o : JVal) (path : String) : Except String JVal :=
  getDeepValueAux o (splitDot path)

/-- Characterization of exception-freedom of the path walk: true when the
walk meets only objects, or stops early at null, undefined or a missing key;
false exactly when a non-null, non-undefined primitive is met with path
segments remaining, the one shape on which getDeepValueAux throws. -/
def safeWalk : JVal → List String → Bool
  | _, [] => true
  | .null, _ :: _ => true
  | .undefined, _ :: _ => true
  | .obj fs, p :: rest =>
      match jGet fs p with
      | none => true
      | some v => safeWalk v rest
  | _, _ :: _ => false

-- ===========================================================================
-- Error model (core.ts MapperxError, lines 146-157)
-- ===========================================================================

/-- The MapperxError payload: destination field, source field (none for
computed fields and for invalid specs, where the sourceField variable is
still unassigned), the message of the causing error, and the offending source
value (undefined when the variable was never assigned). -/
structure MapperxError where
  field : String
  sourceField : Option String
  causeMsg : String
  sourceValue : JVal

/-- The message built by the MapperxError constructor. -/
def mapErrMsg (e : MapperxError) : String :=
  "Mapperx mapping error at \"" ++ e.field ++ "\"" ++
    (match e.sourceField with
     | some s => " (from \"" ++ s ++ "\")"
     | none => " (computed)") ++
    ": " ++ e.causeMsg

/-- Mapper options (core.ts lines 166-177); both flags default to false. -/
structure MapperxOptions where
  strict : Bool := false
  skipInvalid : Bool := false

-- ===========================================================================
-- Field specs and schemas
-- ===========================================================================

/-- A validator or a one-argument function: it returns a value or throws. -/
abbrev JFun1 := JVal → Except String JVal

/-- A transform (value, source) or a computed (mapped, source) function. -/
abbrev JFun2 := JVal → JVal → Except String JVal

/-- The runtime shape of one schema entry.  A string (or symbol) entry is
strSpec.  An object entry records, for each of the keys from, schema,
computed, validate, transform and default, whether the key is present and its
value; required and nullable are read only through the comparisons
required !== false and !nullable, so they are kept as plain values with
undefined for an absent key.  Any other runtime value (number, boolean, null,
undefined, ...) matches none of the four type guards and is primSpec. -/
inductive FieldSpec where
  | strSpec (s : String)
  | objSpec (fromKey : Option String) (sub : Option (List (String × FieldSpec)))
      (computedFn : Option JFun2) (validateFn : Option JFun1)
      (transformFn : Option JFun2) (dflt : Option JVal)
      (required : JVal) (nullable : JVal)
  | primSpec
deriving Inhabited

/-- A schema: destination keys with their specs, in declaration order. -/
abbrev Schema := List (String × FieldSpec)

/-- Type guard isNestedSpec (core.ts lines 88-100): an object with schema and
childFrom present and none of computed, validate, transform present. -/
def isNestedSpec : FieldSpec → Bool
  | .objSpec f s c v t _ _ _ =>
      s.isSome && f.isSome && !c.isSome && !v.isSome && !t.isSome
  | _ => false

/-- Type guard isObjectSpec (core.ts lines 105-115): an object with from
present and neither schema nor computed present. -/
def isObjectSpec : FieldSpec → Bool
  | .objSpec f s c _ _ _ _ _ => f.isSome && !s.isSome && !c.isSome
  | _ => false

/-- Type guard isComputedSpec (core.ts lines 120-130): an object with computed
present and neither from nor schema present. -/
def isComputedSpec : FieldSpec → Bool
  | .objSpec f s c _ _ _ _ _ => c.isSome && !f.isSome && !s.isSome
  | _ => false

/-- Type guard isDirectMapping (core.ts lines 135-137): a string or symbol. -/
def isDirectMapping : FieldSpec → Bool
  | .strSpec _ => true
  | _ => false

/-- The check ("default" in spec && spec.default !== undefined), returning the
default value exactly when it is present and not undefined. -/
def defaultVal : Option JVal → Option JVal
  | some d => if d.isUndefined then none else some d
  | none => none

-- ===========================================================================
-- Phase 2: computed fields (core.ts lines 371-404)
-- ===========================================================================

/-- The try block of the phase-2 loop body of mapperx for one deferred
computed entry: the computed function receives the accumulator so far and the
source; on success its result is committed into the accumulator.  On a throw,
with skipInvalid the default (if present and not undefined) is committed,
otherwise the field is left unset; without skipInvalid the wrapped
MapperxError (sourceField none, no source value) is thrown.  The catch-all
branch is the defensive isComputedSpec re-check at lines 375-382, whose else
branch only warns and skips. -/
def computedStep (api : JVal) (skipInvalid : Bool) (k : String)
    (spec : FieldSpec) (out : List (String × JVal)) :
    Except MapperxError (List (String × JVal)) :=
  match spec with
  | .objSpec _ _ (some f) _ _ dflt _ _ =>
      match f (.obj out) api with
      | .ok v => .ok (setKey out k v)
      | .error m =>
          if skipInvalid then
            match defaultVal dflt with
            | some d => .ok (setKey out k d)
            | none => .ok out
          else .error ⟨k, none, m, .undefined⟩
  | _ => .ok out

/-- Phase 2 of mapperx: process the deferred computed entries in order; each
result is committed before the next computed entry runs.  The entries carry
the spec recorded during phase 1; since object keys are unique, this equals
the schema[key] lookup the source performs. -/
def phase2 (api : JVal) (skipInvalid : Bool) :
    List (String × FieldSpec) → List (String × JVal) →
    Except MapperxError (List (String × JVal))
  | [], out => .ok out
  | (k, spec) :: rest, out =>
      if isComputedSpec spec then
        match computedStep api skipInvalid k spec out with
        | .ok out2 => phase2 api skipInvalid rest out2
        | .error e => .error e
      else phase2 api skipInvalid rest out

-- ===========================================================================
-- Phase 1 and the mapper (core.ts mapperx, lines 229-440)
-- ===========================================================================

mutual

/-- The try block of the phase-1 loop body of mapperx for one non-computed
entry, classified in the order of the source (nested, object, direct,
invalid); the patterns below are exactly the conditions of the corresponding
type guards.  The result ok (some v) assigns v to the destination key, ok
none skips the field, and error e is the wrapped MapperxError the catch would
see.  A nested entry whose resolved value is neither undefined nor null
recursively maps the sub-object with the nested schema and the same options
(the inlined expression below is definitionally the recursive mapperx call,
introduced after this block); an error of the recursive call is re-wrapped
with the outer key, the from path, and the inner error's message as cause. -/
def evalEntry (api : JVal) (opts : MapperxOptions) (k : String)
    (spec : FieldSpec) : Except MapperxError (Option JVal) :=
  match spec with
  | .objSpec (some sf) (some sub) none none none dflt req _ =>
      match getDeepValue api sf with
      | .error m => .error ⟨k, some sf, m, .undefined⟩
      | .ok sv =>
          if sv.isUndefined || sv.isNull then
            match defaultVal dflt with
            | some d => .ok (some d)
            | none =>
                if !req.isFalseLit then
                  .error ⟨k, some sf,
                    "Required nested object is undefined or null", sv⟩
                else .ok none
          else
            match (phase1 sv opts sub [] []).bind
                (fun st => phase2 sv opts.skipInvalid st.2 st.1) with
            | .ok sout => .ok (some (.obj sout))
            | .error e => .error ⟨k, some sf, mapErrMsg e, sv⟩
  | .objSpec (some sf) none none vOpt tOpt dflt req nul =>
      match getDeepValue api sf with
      | .error m => .error ⟨k, some sf, m, .undefined⟩
      | .ok sv =>
          if sv.isUndefined then
            match defaultVal dflt with
            | some d => .ok (some d)
            | none =>
                if !req.isFalseLit then
                  .error ⟨k, some sf, "Required field is undefined", sv⟩
                else .ok none
          else if sv.isNull && !truthy nul then
            .error ⟨k, some sf, "Field is null but not nullable", sv⟩
          else
            match (match vOpt with
                   | some vf => vf sv
                   | none => .ok sv) with
            | .error m => .error ⟨k, some sf, m, sv⟩
            | .ok val1 =>
                match (match tOpt with
                       | some tf => tf val1 api
                       | none => .ok val1) with
                | .error m => .error ⟨k, some sf, m, sv⟩
                | .ok val2 => .ok (some val2)
  | .strSpec name =>
      let sv := jIndex api name
      if sv.isUndefined then
        .error ⟨k, some name, "Field is undefined in source", .undefined⟩
      else .ok (some sv)
  | _ =>
      .error ⟨k, none,
        "Invalid field specification for \"" ++ k ++
          "\". Must be a key, object spec, nested spec, or computed spec.",
        .undefined⟩
termination_by sizeOf spec

/-- Phase 1 of mapperx: walk the schema entries in declaration order, starting
from accumulator out and deferred-computed list comp.  A computed entry is
deferred.  Any other entry is evaluated by evalEntry; a thrown MapperxError
is re-thrown, unless skipInvalid turns it into an omission. -/
def phase1 (api : JVal) (opts : MapperxOptions) (entries : Schema)
    (out : List (String × JVal)) (comp : List (String × FieldSpec)) :
    Except MapperxError (List (String × JVal) × List (String × FieldSpec)) :=
  match entries with
  | [] => .ok (out, comp)
  | (k, spec) :: rest =>
      if isComputedSpec spec then
        phase1 api opts rest out (comp ++ [(k, spec)])
      else
        match evalEntry api opts k spec with
        | .ok (some v) => phase1 api opts rest (setKey out k v) comp
        | .ok none => phase1 api opts rest out comp
        | .error e =>
            if opts.skipInvalid then phase1 api opts rest out comp
            else .error e
termination_by sizeOf entries

end

/-- mapperx api schema options: run phase 1 from the empty accumulator, then
phase 2 over the deferred computed entries, and return the accumulator as the
destination object.  The strict-mode pass (phase 3) only emits a console
warning, modelled separately by strictExtraFields, and never changes the
returned value. -/
def mapperx (api : JVal) (schema : Schema) (opts : MapperxOptions) :
    Except MapperxError JVal :=
  (phase1 api opts schema [] []).bind fun st =>
    (phase2 api opts.skipInvalid st.2 st.1).map JVal.obj

/-- The first segment of a from path, path.split(".")[0]. -/
def rootField (path : String) : String :=
  match splitDot path with
  | r :: _ => r
  | [] => ""

/-- The root source fields referenced by a schema, as collected by the
strict-mode pass: the first path segment of every object or nested spec's
from, and every direct alias. -/
def strictRefs : Schema → List String
  | [] => []
  | (_, spec) :: rest =>
      (match spec with
       | .objSpec (some sf) _ _ _ _ _ _ _ =>
           if isObjectSpec spec || isNestedSpec spec then [rootField sf] else []
       | .strSpec s => [s]
       | _ => []) ++ strictRefs rest

/-- The unreferenced source keys the strict-mode pass would warn about
(core.ts lines 410-437).  The warning is emitted through console.warn; it is
non-fatal and independent of the returned destination. -/
def strictExtraFields (api : JVal) (schema : Schema) : List String :=
  match api with
  | .obj fs => (fs.map Prod.fst).filter (fun k => !(strictRefs schema).contains k)
  | _ => []

-- ===========================================================================
-- Batch runner (core.ts mapperxBatch, lines 482-511)
-- ===========================================================================

/-- One recorded batch failure: the index of the failing item in the original
input sequence, the item itself, and the error. -/
structure BatchErr where
  index : Nat
  item : JVal
  error : MapperxError

/-- The forEach loop of mapperxBatch, carrying the next index: successes are
appended to data in input order, a thrown MapperxError is recorded with the
item's original index.  The re-wrapping of non-MapperxError exceptions at
lines 498-505 is unreachable in the model since mapperx only throws
MapperxError. -/
def batchAux (schema : Schema) (opts : MapperxOptions) :
    Nat → List JVal → List JVal × List BatchErr
  | _, [] => ([], [])
  | i, item :: rest =>
      let r := batchAux schema opts (i + 1) rest
      match mapperx item schema opts with
      | .ok v => (v :: r.1, r.2)
      | .error e => (r.1, ⟨i, item, e⟩ :: r.2)

/-- mapperxBatch items schema options: data and errors; never throws on
account of a per-item failure. -/
def mapperxBatch (items : List JVal) (schema : Schema) (opts : MapperxOptions) :
    List JVal × List BatchErr :=
  batchAux schema opts 0 items

-- ===========================================================================
-- Async module (async.ts: mapperxAsync and mapperxBatchAsync), transcribed
-- independently from its own source.  Validators, transforms and computed
-- functions here are the synchronous (non-thenable-returning) instances the
-- refinement claim quantifies over; awaiting such a result adopts it
-- unchanged, so each await is the identity in the model.
-- ===========================================================================

/-- The phase-2 loop body of mapperxAsync for one deferred computed entry
(async.ts lines 472-492), the computed result awaited. -/
def computedStepAsync (api : JVal) (skipInvalid : Bool) (k : String)
    (spec : FieldSpec) (out : List (String × JVal)) :
    Except MapperxError (List (String × JVal)) :=
  match spec with
  | .objSpec _ _ (some f) _ _ dflt _ _ =>
      match f (.obj out) api with
      | .ok v => .ok (setKey out k v)
      | .error m =>
          if skipInvalid then
            match defaultVal dflt with
            | some d => .ok (setKey out k d)
            | none => .ok out
          else .error ⟨k, none, m, .undefined⟩
  | _ => .ok out

/-- Phase 2 of mapperxAsync (async.ts lines 459-493). -/
def phase2Async (api : JVal) (skipInvalid : Bool) :
    List (String × FieldSpec) → List (String × JVal) →
    Except MapperxError (List (String × JVal))
  | [], out => .ok out
  | (k, spec) :: rest, out =>
      if isComputedSpec spec then
        match computedStepAsync api skipInvalid k spec out with
        | .ok out2 => phase2Async api skipInvalid rest out2
        | .error e => .error e
      else phase2Async api skipInvalid rest out

mutual

/-- The try block of the phase-1 loop body of mapperxAsync for one
non-computed entry (async.ts lines 361-443): same classification, branches
and messages as the synchronous evalEntry, with validator, transform and
nested sub-mapping results awaited (the identity for the synchronous
instances quantified over here). -/
def evalEntryAsync (api : JVal) (opts : MapperxOptions) (k : String)
    (spec : FieldSpec) : Except MapperxError (Option JVal) :=
  match spec with
  | .objSpec (some sf) (some sub) none none none dflt req _ =>
      match getDeepValue api sf with
      | .error m => .error ⟨k, some sf, m, .undefined⟩
      | .ok sv =>
          if sv.isUndefined || sv.isNull then
            match defaultVal dflt with
            | some d => .ok (some d)
            | none =>
                if !req.isFalseLit then
                  .error ⟨k, some sf,
                    "Required nested object is undefined or null", sv⟩
                else .ok none
          else
            match (phase1Async sv opts sub [] []).bind
                (fun st => phase2Async sv opts.skipInvalid st.2 st.1) with
            | .ok sout => .ok (some (.obj sout))
            | .error e => .error ⟨k, some sf, mapErrMsg e, sv⟩
  | .objSpec (some sf) none none vOpt tOpt dflt req nul =>
      match getDeepValue api sf with
      | .error m => .error ⟨k, some sf, m, .undefined⟩
      | .ok sv =>
          if sv.isUndefined then
            match defaultVal dflt with
            | some d => .ok (some d)
            | none =>
                if !req.isFalseLit then
                  .error ⟨k, some sf, "Required field is undefined", sv⟩
                else .ok none
          else if sv.isNull && !truthy nul then
            .error ⟨k, some sf, "Field is null but not nullable", sv⟩
          else
            match (match vOpt with
                   | some vf => vf sv
                   | none => .ok sv) with
            | .error m => .error ⟨k, some sf, m, sv⟩
            | .ok val1 =>
                match (match tOpt with
                       | some tf => tf val1 api
                       | none => .ok val1) with
                | .error m => .error ⟨k, some sf, m, sv⟩
                | .ok val2 => .ok (some val2)
  | .strSpec name =>
      let sv := jIndex api name
      if sv.isUndefined then
        .error ⟨k, some name, "Field is undefined in source", .undefined⟩
      else .ok (some sv)
  | _ =>
      .error ⟨k, none,
        "Invalid field specification for \"" ++ k ++
          "\". Must be a key, object spec, nested spec, or computed spec.",
        .undefined⟩
termination_by sizeOf spec

/-- Phase 1 of mapperxAsync (async.ts lines 348-457): the catch is written as
(if not skipInvalid then throw else continue), and phase 1 completes in full,
in declaration order, before phase 2 begins. -/
def phase1Async (api : JVal) (opts : MapperxOptions) (entries : Schema)
    (out : List (String × JVal)) (comp : List (String × FieldSpec)) :
    Except MapperxError (List (String × JVal) × List (String × FieldSpec)) :=
  match entries with
  | [] => .ok (out, comp)
  | (k, spec) :: rest =>
      if isComputedSpec spec then
        phase1Async api opts rest out (comp ++ [(k, spec)])
      else
        match evalEntryAsync api opts k spec with
        | .ok (some v) => phase1Async api opts rest (setKey out k v) comp
        | .ok none => phase1Async api opts rest out comp
        | .error e =>
            if !opts.skipInvalid then .error e
            else phase1Async api opts rest out comp
termination_by sizeOf entries

end

/-- mapperxAsync api schema options, for schemas whose supplied functions all
return non-thenable values: resolves to the destination, or rejects with a
MapperxError. -/
def mapperxAsync (api : JVal) (schema : Schema) (opts : MapperxOptions) :
    Except MapperxError JVal :=
  (phase1Async api opts schema [] []).bind fun st =>
    (phase2Async api opts.skipInvalid st.2 st.1).map JVal.obj

/-- The Promise.allSettled fan-out of mapperxBatchAsync (async.ts lines
550-604), observed in input order: a fulfilled item is appended to data, a
rejected one is recorded under its original index (the index captured by the
per-item catch).  Settlement order of the concurrent fan-out does not affect
the result, which allSettled reports in input order. -/
def batchAuxAsync (schema : Schema) (opts : MapperxOptions) :
    Nat → List JVal → List JVal × List BatchErr
  | _, [] => ([], [])
  | i, item :: rest =>
      let r := batchAuxAsync schema opts (i + 1) rest
      match mapperxAsync item schema opts with
      | .ok v => (v :: r.1, r.2)
      | .error e => (r.1, ⟨i, item, e⟩ :: r.2)

/-- mapperxBatchAsync items schema options. -/
def mapperxBatchAsync (items : List JVal) (schema : Schema)
    (opts : MapperxOptions) : List JVal × List BatchErr :=
  batchAuxAsync schema opts 0 items

-- ===========================================================================
-- Supporting lemmas
-- ===========================================================================

@[simp] theorem exc_bind_ok {ε α β : Type} (a : α) (f : α → Except ε β) :
    (Except.ok a : Except ε α).bind f = f a := rfl

@[simp] theorem exc_bind_error {ε α β : Type} (e : ε) (f : α → Except ε β) :
    (Except.error e : Except ε α).bind f = .error e := rfl

@[simp] theorem exc_map_ok {ε α β : Type} (a : α) (f : α → β) :
    (Except.ok a : Except ε α).map f = .ok (f a) := rfl

@[simp] theorem exc_map_error {ε α β : Type} (e : ε) (f : α → β) :
    (Except.error e : Except ε α).map f = .error e := rfl

theorem phase1_nil (api : JVal) (opts : MapperxOptions) (out comp) :
    phase1 api opts [] out comp = .ok (out, comp) := by
  rw [phase1]

theorem phase1_cons (api : JVal) (opts : MapperxOptions) (k : String)
    (spec : FieldSpec) (rest : Schema) (out comp) :
    phase1 api opts ((k, spec) :: rest) out comp =
      if isComputedSpec spec then
        phase1 api opts rest out (comp ++ [(k, spec)])
      else
        match evalEntry api opts k spec with
        | .ok (some v) => phase1 api opts rest (setKey out k v) comp
        | .ok none => phase1 api opts rest out comp
        | .error e =>
            if opts.skipInvalid then phase1 api opts rest out comp
            else .error e := by
  rw [phase1]

theorem phase1_append (api : JVal) (opts : MapperxOptions) (xs ys : Schema)
    (out comp) :
    phase1 api opts (xs ++ ys) out comp =
      (phase1 api opts xs out comp).bind
        (fun st => phase1 api opts ys st.1 st.2) := by
  induction xs generalizing out comp with
  | nil => simp [phase1_nil]
  | cons hd rest ih =>
      obtain ⟨k, spec⟩ := hd
      rw [List.cons_append, phase1_cons, phase1_cons]
      by_cases hc : isComputedSpec spec
      · simp only [hc, if_true]
        exact ih _ _
      · simp only [hc, Bool.false_eq_true, if_false]
        cases he : evalEntry api opts k spec with
        | ok ov =>
            cases ov with
            | some v => exact ih _ _
            | none => exact ih _ _
        | error e =>
            by_cases hs : opts.skipInvalid
            · simp only [hs, if_true]
              exact ih _ _
            · simp [hs]

theorem isUndefined_undefined : JVal.undefined.isUndefined = true := rfl

theorem isUndefined_null : JVal.null.isUndefined = false := rfl

theorem isNull_null : JVal.null.isNull = true := rfl

theorem isNull_undefined : JVal.undefined.isNull = false := rfl

-- branch-level unfolding lemmas for phase1
theorem phase1_cons_computed (api : JVal) (opts : MapperxOptions) {k spec}
    (hc : isComputedSpec spec = true) (rest : Schema) (out comp) :
    phase1 api opts ((k, spec) :: rest) out comp =
      phase1 api opts rest out (comp ++ [(k, spec)]) := by
  rw [phase1_cons, if_pos hc]

theorem phase1_cons_set (api : JVal) (opts : MapperxOptions) {k spec v}
    (he : evalEntry api opts k spec = .ok (some v))
    (hc : isComputedSpec spec = false) (rest : Schema) (out comp) :
    phase1 api opts ((k, spec) :: rest) out comp =
      phase1 api opts rest (setKey out k v) comp := by
  rw [phase1_cons, if_neg (by simp [hc]), he]

theorem phase1_cons_skip (api : JVal) (opts : MapperxOptions) {k spec}
    (he : evalEntry api opts k spec = .ok none)
    (hc : isComputedSpec spec = false) (rest : Schema) (out comp) :
    phase1 api opts ((k, spec) :: rest) out comp =
      phase1 api opts rest out comp := by
  rw [phase1_cons, if_neg (by simp [hc]), he]

theorem phase1_cons_err_skipped (api : JVal) {opts : MapperxOptions} {k spec e}
    (he : evalEntry api opts k spec = .error e)
    (hc : isComputedSpec spec = false)
    (hs : opts.skipInvalid = true) (rest : Schema) (out comp) :
    phase1 api opts ((k, spec) :: rest) out comp =
      phase1 api opts rest out comp := by
  rw [phase1_cons, if_neg (by simp [hc]), he]
  simp [hs]

theorem phase1_cons_err (api : JVal) {opts : MapperxOptions} {k spec e}
    (he : evalEntry api opts k spec = .error e)
    (hc : isComputedSpec spec = false)
    (hs : opts.skipInvalid = false) (rest : Schema) (out comp) :
    phase1 api opts ((k, spec) :: rest) out comp = .error e := by
  rw [phase1_cons, if_neg (by simp [hc]), he]
  simp [hs]

-- partition lemma for C1
theorem phase1_split (api : JVal) (opts : MapperxOptions) (entries : Schema) :
    ∀ out comp,
      phase1 api opts entries out comp =
        (phase1 api opts (entries.filter fun e => !isComputedSpec e.2) out []).map
          (fun st => (st.1, comp ++ entries.filter fun e => isComputedSpec e.2)) := by
  induction entries with
  | nil => intro out comp; simp [phase1_nil]
  | cons hd rest ih =>
      intro out comp
      obtain ⟨k, spec⟩ := hd
      rw [List.filter_cons, List.filter_cons]
      by_cases hc : isComputedSpec spec
      · rw [phase1_cons_computed api opts hc, ih]
        simp only [hc, Bool.not_true, Bool.false_eq_true, if_false, if_true,
          List.append_assoc, List.singleton_append]
      · replace hc := Bool.eq_false_iff.mpr hc
        simp only [hc, Bool.not_false, Bool.false_eq_true, if_false, if_true]
        cases he : evalEntry api opts k spec with
        | ok ov =>
            cases ov with
            | some v =>
                rw [phase1_cons_set api opts he hc, ih,
                  phase1_cons_set api opts he hc]
            | none =>
                rw [phase1_cons_skip api opts he hc, ih,
                  phase1_cons_skip api opts he hc]
        | error e =>
            cases hs : opts.skipInvalid with
            | true =>
                rw [phase1_cons_err_skipped api he hc hs, ih,
                  phase1_cons_err_skipped api he hc hs]
            | false =>
                rw [phase1_cons_err api he hc hs, phase1_cons_err api he hc hs]
                rfl

-- async branch-level unfolding lemmas
theorem phase1Async_nil (api : JVal) (opts : MapperxOptions) (out comp) :
    phase1Async api opts [] out comp = .ok (out, comp) := by
  rw [phase1Async]

theorem phase1Async_cons (api : JVal) (opts : MapperxOptions) (k : String)
    (spec : FieldSpec) (rest : Schema) (out comp) :
    phase1Async api opts ((k, spec) :: rest) out comp =
      if isComputedSpec spec then
        phase1Async api opts rest out (comp ++ [(k, spec)])
      else
        match evalEntryAsync api opts k spec with
        | .ok (some v) => phase1Async api opts rest (setKey out k v) comp
        | .ok none => phase1Async api opts rest out comp
        | .error e =>
            if !opts.skipInvalid then .error e
            else phase1Async api opts rest out comp := by
  rw [phase1Async]

-- the computed-entry step of the async module is the synchronous one
theorem computedStepAsync_eq (api : JVal) (skip : Bool) (k : String)
    (spec : FieldSpec) (out : List (String × JVal)) :
    computedStepAsync api skip k spec out = computedStep api skip k spec out := rfl

-- phase2 of the async module coincides with the synchronous phase2
theorem phase2Async_eq (api : JVal) (skip : Bool) :
    ∀ (l : List (String × FieldSpec)) (out : List (String × JVal)),
      phase2Async api skip l out = phase2 api skip l out := by
  intro l
  induction l with
  | nil => intro out; rfl
  | cons hd rest ih =>
      intro out
      obtain ⟨k, spec⟩ := hd
      rw [phase2Async, phase2, computedStepAsync_eq]
      by_cases hcb : isComputedSpec spec
      · simp only [hcb, if_true]
        cases hcs : computedStep api skip k spec out with
        | ok out2 => simp [ih]
        | error e => simp
      · simp only [hcb, Bool.false_eq_true, if_false]
        exact ih out

-- the async engine agrees with the synchronous engine entry-by-entry, for any
-- two option records agreeing on skipInvalid
theorem entry_phase_agree :
    ∀ n : Nat, ∀ o1 o2 : MapperxOptions, o1.skipInvalid = o2.skipInvalid →
      (∀ spec : FieldSpec, sizeOf spec < n → ∀ api k,
          evalEntryAsync api o1 k spec = evalEntry api o2 k spec) ∧
      (∀ entries : Schema, sizeOf entries < n → ∀ api out comp,
          phase1Async api o1 entries out comp = phase1 api o2 entries out comp) := by
  intro n
  induction n with
  | zero =>
      intro o1 o2 h
      exact ⟨fun spec hs => absurd hs (Nat.not_lt_zero _),
             fun entries hs => absurd hs (Nat.not_lt_zero _)⟩
  | succ n ih =>
      intro o1 o2 h
      constructor
      · intro spec hs api k
        rcases spec with s | ⟨f, s, c, v, t, d, r, nl⟩ | _
        · simp only [evalEntryAsync, evalEntry]
        · rcases f with _ | sf
          · simp only [evalEntryAsync, evalEntry]
          · rcases c with _ | cf
            · rcases s with _ | sub
              · simp only [evalEntryAsync, evalEntry]
              · rcases v with _ | vf
                · rcases t with _ | tf
                  · -- nested spec
                    simp only [evalEntryAsync, evalEntry]
                    cases hg : getDeepValue api sf with
                    | error m => rfl
                    | ok sv =>
                        by_cases hu : (sv.isUndefined || sv.isNull) = true
                        · simp only [hu, if_true]
                        · simp only [hu, Bool.false_eq_true, if_false]
                          have hsub : sizeOf sub < n := by
                            simp only [FieldSpec.objSpec.sizeOf_spec,
                              Option.some.sizeOf_spec] at hs
                            omega
                          rw [(ih o1 o2 h).2 sub hsub, h]
                          simp only [phase2Async_eq]
                  · simp only [evalEntryAsync, evalEntry]
                · simp only [evalEntryAsync, evalEntry]
            · simp only [evalEntryAsync, evalEntry]
        · simp only [evalEntryAsync, evalEntry]
      · intro entries hs api out comp
        match entries with
        | [] => rw [phase1Async_nil, phase1_nil]
        | (k, spec) :: rest =>
            have hrest : sizeOf rest < n := by
              simp only [List.cons.sizeOf_spec, Prod.mk.sizeOf_spec] at hs
              omega
            have hspec : sizeOf spec < n := by
              simp only [List.cons.sizeOf_spec, Prod.mk.sizeOf_spec] at hs
              omega
            rw [phase1Async_cons, phase1_cons, (ih o1 o2 h).1 spec hspec]
            by_cases hc : isComputedSpec spec
            · simp only [hc, if_true]
              exact (ih o1 o2 h).2 rest hrest api out (comp ++ [(k, spec)])
            · simp only [hc, Bool.false_eq_true, if_false]
              cases he : evalEntry api o2 k spec with
              | ok ov =>
                  cases ov with
                  | some v2 => exact (ih o1 o2 h).2 rest hrest api (setKey out k v2) comp
                  | none => exact (ih o1 o2 h).2 rest hrest api out comp
              | error e =>
                  rw [h]
                  cases hsk : o2.skipInvalid with
                  | true =>
                      simp only [Bool.not_true, Bool.false_eq_true, if_false, if_true]
                      exact (ih o1 o2 h).2 rest hrest api out comp
                  | false =>
                      simp only [Bool.not_false, if_true, Bool.false_eq_true, if_false]

theorem phase1Async_eq (api : JVal) (opts : MapperxOptions) (entries : Schema)
    (out comp) :
    phase1Async api opts entries out comp = phase1 api opts entries out comp :=
  (entry_phase_agree (sizeOf entries + 1) opts opts rfl).2 entries
    (Nat.lt_succ_self _) api out comp

theorem phase1_opts {o1 o2 : MapperxOptions} (h : o1.skipInvalid = o2.skipInvalid)
    (api : JVal) (entries : Schema) (out comp) :
    phase1 api o1 entries out comp = phase1 api o2 entries out comp := by
  rw [← phase1Async_eq api o1 entries out comp]
  exact (entry_phase_agree (sizeOf entries + 1) o1 o2 h).2 entries
    (Nat.lt_succ_self _) api out comp

theorem mapperx_opts (o1 o2 : MapperxOptions) (h : o1.skipInvalid = o2.skipInvalid)
    (api : JVal) (schema : Schema) :
    mapperx api schema o1 = mapperx api schema o2 := by
  simp only [mapperx, phase1_opts h, h]

theorem mapperxAsync_eq (api : JVal) (schema : Schema) (opts : MapperxOptions) :
    mapperxAsync api schema opts = mapperx api schema opts := by
  simp only [mapperxAsync, mapperx, phase1Async_eq, phase2Async_eq]

theorem mapperx_decompose (api : JVal) (opts : MapperxOptions) {pre : Schema}
    {st} (hpre : phase1 api opts pre [] [] = .ok st) (rest : Schema) :
    mapperx api (pre ++ rest) opts =
      (phase1 api opts rest st.1 st.2).bind fun st2 =>
        (phase2 api opts.skipInvalid st2.2 st2.1).map JVal.obj := by
  simp only [mapperx, phase1_append, hpre, exc_bind_ok]

-- batch characterization
theorem batchAux_spec (schema : Schema) (opts : MapperxOptions) :
    ∀ (items : List JVal) (i : Nat),
      batchAux schema opts i items =
        (items.filterMap (fun it => (mapperx it schema opts).toOption),
         (items.enumFrom i).filterMap (fun p =>
            match mapperx p.2 schema opts with
            | .error e => some ⟨p.1, p.2, e⟩
            | .ok _ => none)) := by
  intro items
  induction items with
  | nil => intro i; rfl
  | cons item rest ih =>
      intro i
      rw [batchAux]
      cases hm : mapperx item schema opts with
      | ok v => simp [List.enumFrom, ih, List.filterMap_cons, hm, Except.toOption]
      | error e => simp [List.enumFrom, ih, List.filterMap_cons, hm, Except.toOption]

theorem batchAux_index_ge (schema : Schema) (opts : MapperxOptions) :
    ∀ (items : List JVal) (i : Nat) (b : BatchErr),
      b ∈ (batchAux schema opts i items).2 → i ≤ b.index := by
  intro items
  induction items with
  | nil => intro i b hb; rw [batchAux] at hb; simp at hb
  | cons item rest ih =>
      intro i b hb
      rw [batchAux] at hb
      cases hm : mapperx item schema opts with
      | ok v =>
          rw [hm] at hb
          simp only at hb
          exact Nat.le_of_succ_le (ih (i + 1) b hb)
      | error e =>
          rw [hm] at hb
          simp only [List.mem_cons] at hb
          cases hb with
          | inl hbe => subst hbe; exact Nat.le_refl i
          | inr hbe => exact Nat.le_of_succ_le (ih (i + 1) b hbe)

theorem batchAux_index_sorted (schema : Schema) (opts : MapperxOptions) :
    ∀ (items : List JVal) (i : Nat),
      ((batchAux schema opts i items).2.map BatchErr.index).Pairwise (· < ·) := by
  intro items
  induction items with
  | nil => intro i; rw [batchAux]; simp
  | cons item rest ih =>
      intro i
      rw [batchAux]
      cases hm : mapperx item schema opts with
      | ok v => simpa using ih (i + 1)
      | error e =>
          simp only [List.map_cons, List.pairwise_cons]
          constructor
          · intro j hj
            simp only [List.mem_map] at hj
            obtain ⟨b, hb, hbj⟩ := hj
            have := batchAux_index_ge schema opts rest (i + 1) b hb
            omega
          · exact ih (i + 1)

theorem batchAux_length (schema : Schema) (opts : MapperxOptions) :
    ∀ (items : List JVal) (i : Nat),
      (batchAux schema opts i items).1.length +
        (batchAux schema opts i items).2.length = items.length := by
  intro items
  induction items with
  | nil => intro i; rfl
  | cons item rest ih =>
      intro i
      rw [batchAux]
      cases hm : mapperx item schema opts with
      | ok v => simp only [List.length_cons]; have := ih (i + 1); omega
      | error e => simp only [List.length_cons]; have := ih (i + 1); omega

theorem batchAuxAsync_eq (schema : Schema) (opts : MapperxOptions) :
    ∀ (items : List JVal) (i : Nat),
      batchAuxAsync schema opts i items = batchAux schema opts i items := by
  intro items
  induction items with
  | nil => intro i; rfl
  | cons item rest ih =>
      intro i
      rw [batchAuxAsync, batchAux, ih, mapperxAsync_eq]

/-- C1: two-phase evaluation order.  First conjunct: for every source, schema
and options, mapperx equals running phase 1 over exactly the non-computed
entries in declaration order from the empty accumulator, and then phase 2
over exactly the computed entries in declaration order, on the phase-1
accumulator.  Second conjunct: a successful computed entry commits its result
(computed from the accumulator so far and the source) into the accumulator
before any later computed entry is processed. -/
theorem c1_two_phase_order :
    (∀ (api : JVal) (schema : Schema) (opts : MapperxOptions),
        mapperx api schema opts =
          (phase1 api opts (schema.filter fun e => !isComputedSpec e.2) [] []).bind
            (fun st =>
              (phase2 api opts.skipInvalid
                  (schema.filter fun e => isComputedSpec e.2) st.1).map JVal.obj)) ∧
    (∀ (api : JVal) (skip : Bool) (k : String) (f : JFun2)
        (vOpt : Option JFun1) (tOpt : Option JFun2) (dflt : Option JVal)
        (req nul : JVal) (rest : List (String × FieldSpec))
        (out : List (String × JVal)) (v : JVal),
        f (.obj out) api = .ok v →
        phase2 api skip
            ((k, .objSpec none none (some f) vOpt tOpt dflt req nul) :: rest) out =
          phase2 api skip rest (setKey out k v)) := by
  constructor
  · intro api schema opts
    rw [mapperx, phase1_split]
    cases hp : phase1 api opts (schema.filter fun e => !isComputedSpec e.2) [] [] with
    | ok st => simp [hp]
    | error e => simp [hp]
  · intro api skip k f vOpt tOpt dflt req nul rest out v hf
    rw [phase2]
    have hc : isComputedSpec (.objSpec none none (some f) vOpt tOpt dflt req nul) = true := by
      simp [isComputedSpec]
    rw [if_pos hc]
    have hstep : computedStep api skip k
        (.objSpec none none (some f) vOpt tOpt dflt req nul) out =
          .ok (setKey out k v) := by
      simp only [computedStep, hf]
    rw [hstep]

/-- C1 witness: the second conjunct at a concrete computed entry (a constant
function) committing its value into the accumulator. -/
theorem c1_two_phase_order_witness :
    phase2 (JVal.obj []) false
        [("t", .objSpec none none (some fun _ _ => .ok (.num 2)) none none none .undefined .undefined)] [] =
      phase2 (JVal.obj []) false [] (setKey [] "t" (.num 2)) :=
  c1_two_phase_order.2 (JVal.obj []) false "t" (fun _ _ => .ok (.num 2))
    none none none .undefined .undefined [] [] (.num 2) rfl

/-- C6: batch partition and isolation, for the synchronous and asynchronous
batch runners alike.  data and errors partition the input:
data.length + errors.length = items.length; data is exactly the successful
results in input order; errors is exactly the enumeration-indexed failures in
input order, each entry carrying the failing item's position in the original
input and the item and error themselves, with the recorded indices strictly
increasing (hence no index twice); and the async batch runner returns the
same partition.  Both runners are total functions: a per-item failure is
recorded, never rethrown. -/
theorem c6_batch_partition (items : List JVal) (schema : Schema)
    (opts : MapperxOptions) :
    (mapperxBatch items schema opts).1.length +
        (mapperxBatch items schema opts).2.length = items.length ∧
    (mapperxBatch items schema opts).1 =
      items.filterMap (fun it => (mapperx it schema opts).toOption) ∧
    (mapperxBatch items schema opts).2 =
      items.enum.filterMap (fun p =>
        match mapperx p.2 schema opts with
        | .error e => some ⟨p.1, p.2, e⟩
        | .ok _ => none) ∧
    ((mapperxBatch items schema opts).2.map BatchErr.index).Pairwise (· < ·) ∧
    mapperxBatchAsync items schema opts = mapperxBatch items schema opts := by
  refine ⟨batchAux_length schema opts items 0, ?_, ?_, ?_, ?_⟩
  · rw [mapperxBatch, batchAux_spec]
  · rw [mapperxBatch, batchAux_spec, List.enum]
  · exact batchAux_index_sorted schema opts items 0
  · rw [mapperxBatchAsync, mapperxBatch, batchAuxAsync_eq]

/-- C7: the async engine refines the synchronous one: for every source,
options, and schema whose validators, transforms and computed functions are
synchronous (return non-thenable values, the instances representable in this
embedding), mapperxAsync resolves to exactly what mapperx returns, and
rejects with the same MapperxError (same field and sourceField) exactly when
mapperx throws: the whole Except results coincide. -/
theorem c7_async_refines_sync (api : JVal) (schema : Schema)
    (opts : MapperxOptions) :
    mapperxAsync api schema opts = mapperx api schema opts :=
  mapperxAsync_eq api schema opts

/-- C8: strict mode never affects the returned value: with the same
skipInvalid setting, mapping with strict true returns exactly the same result
(destination or error) as with strict false; the unreferenced-field check
only feeds the console diagnostic (strictExtraFields), which is not part of
the returned value. -/
theorem c8_strict_no_effect (api : JVal) (schema : Schema) (skip : Bool) :
    mapperx api schema ⟨true, skip⟩ = mapperx api schema ⟨false, skip⟩ :=
  mapperx_opts ⟨true, skip⟩ ⟨false, skip⟩ rfl api schema

-- helpers
theorem exc_bind_congr {ε α β : Type} (x : Except ε α) (f g : α → Except ε β)
    (h : ∀ a, f a = g a) : x.bind f = x.bind g := by
  cases x with
  | ok a => simp [h]
  | error e => simp

theorem jGet_setKey (l : List (String × JVal)) (k : String) (v : JVal) :
    jGet (setKey l k v) k = some v := by
  induction l with
  | nil => simp [setKey, jGet]
  | cons hd rest ih =>
      obtain ⟨k2, v2⟩ := hd
      by_cases hk : k2 = k
      · subst hk; simp [setKey, jGet]
      · simp [setKey, jGet, hk, ih]

theorem getDeepValueAux_ok_iff (parts : List String) :
    ∀ cur : JVal, (∃ v, getDeepValueAux cur parts = .ok v) ↔
      safeWalk cur parts = true := by
  induction parts with
  | nil => intro cur; simp [getDeepValueAux, safeWalk]
  | cons p rest ih =>
      intro cur
      cases cur with
      | undefined => simp [getDeepValueAux, safeWalk]
      | null => simp [getDeepValueAux, safeWalk]
      | str s => simp [getDeepValueAux, safeWalk]
      | num n => simp [getDeepValueAux, safeWalk]
      | bool b => simp [getDeepValueAux, safeWalk]
      | obj fs =>
          cases hg : jGet fs p with
          | none => simp [getDeepValueAux, safeWalk, hg]
          | some v => simp [getDeepValueAux, safeWalk, hg, ih]

/-- C4 counterexample: on the source with a equal to the number 5 and the
path a.b, the resolver reaches the primitive 5 with the segment b remaining
and throws a TypeError from the in operator, rather than returning a value or
the ABSENT sentinel. -/
theorem c4_path_resolver_counterexample :
    getDeepValue (.obj [("a", .num 5)]) "a.b" =
      .error "TypeError: Cannot use in operator on a primitive" := by rfl

/-- C4 amended: the path resolver returns a value or ABSENT (undefined)
exactly when the walk never meets a non-null, non-undefined primitive with
path segments remaining (safeWalk); the moment the current node is null or
undefined, or is an object lacking the next segment, the result is the ABSENT
sentinel undefined; on a non-null primitive intermediate node it instead
throws a TypeError. -/
theorem c4_path_resolver_amended :
    (∀ (o : JVal) (path : String),
        (∃ v, getDeepValue o path = .ok v) ↔ safeWalk o (splitDot path) = true) ∧
    (∀ (fs : List (String × JVal)) (part : String) (rest : List String),
        jGet fs part = none →
        getDeepValueAux (.obj fs) (part :: rest) = .ok .undefined) ∧
    (∀ (part : String) (rest : List String),
        getDeepValueAux .null (part :: rest) = .ok .undefined ∧
        getDeepValueAux .undefined (part :: rest) = .ok .undefined) := by
  refine ⟨fun o path => getDeepValueAux_ok_iff (splitDot path) o, ?_, ?_⟩
  · intro fs part rest hg
    simp [getDeepValueAux, hg]
  · intro part rest
    exact ⟨rfl, rfl⟩

/-- C4 witness: the amended theorem applied at a source whose object lacks
the requested segment, yielding the ABSENT sentinel. -/
theorem c4_path_resolver_amended_witness :
    getDeepValueAux (.obj [("x", .num 1)]) ["y"] = .ok .undefined :=
  c4_path_resolver_amended.2.1 [("x", .num 1)] "y" [] rfl

/-- C5: field-spec classification.  A string entry is a direct mapping; the
four type guards are pairwise exclusive, so the ordered decision is
unambiguous; and an entry matching none of the four guards makes the engine
raise the invalid-spec error naming the destination field (with sourceField
unassigned). -/
theorem c5_spec_classification :
    (∀ s : String, isDirectMapping (.strSpec s) = true) ∧
    (∀ spec : FieldSpec,
        (isNestedSpec spec && isObjectSpec spec) = false ∧
        (isNestedSpec spec && isComputedSpec spec) = false ∧
        (isObjectSpec spec && isComputedSpec spec) = false ∧
        (isDirectMapping spec &&
          (isNestedSpec spec || isObjectSpec spec || isComputedSpec spec)) = false) ∧
    (∀ (api : JVal) (strict : Bool) (k : String) (spec : FieldSpec)
        (rest : Schema) (out comp),
        isNestedSpec spec = false → isObjectSpec spec = false →
        isComputedSpec spec = false → isDirectMapping spec = false →
        phase1 api ⟨strict, false⟩ ((k, spec) :: rest) out comp =
          .error ⟨k, none,
            "Invalid field specification for \"" ++ k ++
              "\". Must be a key, object spec, nested spec, or computed spec.",
            .undefined⟩) := by
  refine ⟨fun s => rfl, ?_, ?_⟩
  · intro spec
    rcases spec with s | ⟨f, s, c, v, t, d, r, nl⟩ | _
    · simp [isNestedSpec, isObjectSpec, isComputedSpec, isDirectMapping]
    · rcases f with _ | ff <;> rcases s with _ | ss <;> rcases c with _ | cc <;>
        simp [isNestedSpec, isObjectSpec, isComputedSpec, isDirectMapping]
    · simp [isNestedSpec, isObjectSpec, isComputedSpec, isDirectMapping]
  · intro api strict k spec rest out comp hn ho hc hd
    have he : evalEntry api ⟨strict, false⟩ k spec =
        .error ⟨k, none,
          "Invalid field specification for \"" ++ k ++
            "\". Must be a key, object spec, nested spec, or computed spec.",
          .undefined⟩ := by
      rcases spec with s | ⟨f, s, c, v, t, d, r, nl⟩ | _
      · simp [isDirectMapping] at hd
      · rcases f with _ | ff
        · rcases s with _ | ss <;> rcases c with _ | cc <;>
            simp only [evalEntryAsync, evalEntry]
        · rcases s with _ | ss <;> rcases c with _ | cc
          · simp [isObjectSpec] at ho
          · simp only [evalEntry]
          · rcases v with _ | vv <;> rcases t with _ | tt
            · simp [isNestedSpec] at hn
            · simp only [evalEntry]
            · simp only [evalEntry]
            · simp only [evalEntry]
          · simp only [evalEntry]
      · simp only [evalEntry]
    exact phase1_cons_err api he hc rfl rest out comp

/-- C5 witness: the invalid-spec branch for a numeric schema entry, which no
guard classifies. -/
theorem c5_spec_classification_witness :
    phase1 (JVal.obj []) ⟨false, false⟩ [("k", FieldSpec.primSpec)] [] [] =
      .error ⟨"k", none,
        "Invalid field specification for \"" ++ "k" ++
          "\". Must be a key, object spec, nested spec, or computed spec.",
        .undefined⟩ :=
  c5_spec_classification.2.2 (JVal.obj []) false "k" FieldSpec.primSpec [] [] []
    rfl rfl rfl rfl

/-- C2: validator-failure semantics, for a schema with an ObjectSpec entry at
key k whose validator always raises, the other entries arbitrary.  Without
skipInvalid (given that the entries before k succeed, so the failing field is
reached), map throws a MapperxError whose field is k and whose sourceField is
the spec's from path, discarding the partial destination.  With skipInvalid,
the result is exactly the result of mapping with the failing entry removed
from the schema: the key is omitted and every other declared field is mapped
as it would normally be. -/
theorem c2_validator_failure (api : JVal) (pre post : Schema) (k sf : String)
    (vf : JFun1) (tOpt : Option JFun2) (dflt : Option JVal) (req nul : JVal)
    (strict : Bool) (sv : JVal)
    (st : List (String × JVal) × List (String × FieldSpec))
    (hval : ∀ v, ∃ m, vf v = .error m)
    (hres : getDeepValue api sf = .ok sv)
    (hu : sv.isUndefined = false)
    (hnn : (sv.isNull && !truthy nul) = false)
    (hpre : phase1 api ⟨strict, false⟩ pre [] [] = .ok st) :
    (∃ m, mapperx api
        (pre ++ (k, .objSpec (some sf) none none (some vf) tOpt dflt req nul) :: post)
        ⟨strict, false⟩ = .error ⟨k, some sf, m, sv⟩) ∧
    mapperx api
        (pre ++ (k, .objSpec (some sf) none none (some vf) tOpt dflt req nul) :: post)
        ⟨strict, true⟩ =
      mapperx api (pre ++ post) ⟨strict, true⟩ := by
  obtain ⟨m, hm⟩ := hval sv
  have he : ∀ opts : MapperxOptions,
      evalEntry api opts k (.objSpec (some sf) none none (some vf) tOpt dflt req nul) =
        .error ⟨k, some sf, m, sv⟩ := by
    intro opts
    simp only [evalEntry, hres, hu, Bool.false_eq_true, if_false, hnn, hm]
  have hc : isComputedSpec (.objSpec (some sf) none none (some vf) tOpt dflt req nul) = false := rfl
  constructor
  · refine ⟨m, ?_⟩
    rw [mapperx_decompose api ⟨strict, false⟩ hpre,
      phase1_cons_err api (he ⟨strict, false⟩) hc rfl post st.1 st.2]
    rfl
  · simp only [mapperx, phase1_append]
    have hfun : (fun st2 : List (String × JVal) × List (String × FieldSpec) =>
        phase1 api ⟨strict, true⟩
          ((k, FieldSpec.objSpec (some sf) none none (some vf) tOpt dflt req nul) :: post)
          st2.1 st2.2) =
        fun st2 => phase1 api ⟨strict, true⟩ post st2.1 st2.2 := by
      funext st2
      exact phase1_cons_err_skipped api (he ⟨strict, true⟩) hc rfl post st2.1 st2.2
    rw [hfun]

/-- C2 witness: a one-field schema whose validator always raises, on a source
where the field is present: without skipInvalid the thrown error carries the
destination key and the from path; with skipInvalid the result is that of the
empty schema, lacking the key. -/
theorem c2_validator_failure_witness :
    (∃ m, mapperx (JVal.obj [("e", .str "x")])
        [("k", .objSpec (some "e") none none (some fun _ => .error "bad") none none .undefined .undefined)]
        ⟨false, false⟩ = .error ⟨"k", some "e", m, .str "x"⟩) ∧
    mapperx (JVal.obj [("e", .str "x")])
        [("k", .objSpec (some "e") none none (some fun _ => .error "bad") none none .undefined .undefined)]
        ⟨false, true⟩ =
      mapperx (JVal.obj [("e", .str "x")]) [] ⟨false, true⟩ :=
  c2_validator_failure (JVal.obj [("e", .str "x")]) [] [] "k" "e"
    (fun _ => .error "bad") none none .undefined .undefined false (.str "x") ([], [])
    (fun _ => ⟨"bad", rfl⟩) rfl rfl rfl (phase1_nil _ _ _ _)

/-- C3 counterexample: an ObjectSpec field with from f, default 7, nullable
not set, on a source where f is present and null: map raises the nullability
error instead of recovering via the default, so the default is not consulted
before raising in the nullability case and the destination field does not
receive it. -/
theorem c3_default_counterexample :
    mapperx (JVal.obj [("f", .null)])
        [("k", .objSpec (some "f") none none none none (some (.num 7)) .undefined .undefined)]
        ⟨false, false⟩ =
      .error ⟨"k", some "f", "Field is null but not nullable", .null⟩ := by
  have he : evalEntry (JVal.obj [("f", .null)]) ⟨false, false⟩ "k"
      (.objSpec (some "f") none none none none (some (.num 7)) .undefined .undefined) =
        .error ⟨"k", some "f", "Field is null but not nullable", .null⟩ := by
    simp only [evalEntry,
      show getDeepValue (JVal.obj [("f", .null)]) "f" = .ok .null from rfl]
    rfl
  rw [mapperx, phase1_cons_err (JVal.obj [("f", .null)]) he rfl rfl [] [] []]
  rfl

/-- C3 amended: the default is consulted before raising when resolution
yields undefined (the destination field then receives the default and the
field raises no error), and in the computed case only under skipInvalid; but
when the resolved value is null and nullable is not true, the nullability
error is raised even though a default is provided. -/
theorem c3_default_before_raising (api : JVal) (pre post : Schema)
    (k sf : String) (vOpt : Option JFun1) (tOpt : Option JFun2) (d : JVal)
    (req nul : JVal) (strict skip : Bool)
    (st : List (String × JVal) × List (String × FieldSpec))
    (hd : d.isUndefined = false)
    (hpre : phase1 api ⟨strict, skip⟩ pre [] [] = .ok st) :
    (getDeepValue api sf = .ok .undefined →
      mapperx api
          (pre ++ (k, .objSpec (some sf) none none vOpt tOpt (some d) req nul) :: post)
          ⟨strict, skip⟩ =
        (phase1 api ⟨strict, skip⟩ post (setKey st.1 k d) st.2).bind (fun st2 =>
          (phase2 api skip st2.2 st2.1).map JVal.obj)) ∧
    (getDeepValue api sf = .ok .null → truthy nul = false → skip = false →
      mapperx api
          (pre ++ (k, .objSpec (some sf) none none vOpt tOpt (some d) req nul) :: post)
          ⟨strict, skip⟩ =
        .error ⟨k, some sf, "Field is null but not nullable", .null⟩) ∧
    (∀ (f : JFun2) (out : List (String × JVal)) (rest : List (String × FieldSpec))
        (m : String),
      f (.obj out) api = .error m →
      phase2 api true ((k, .objSpec none none (some f) none none (some d) req nul) :: rest) out =
        phase2 api true rest (setKey out k d)) := by
  refine ⟨?_, ?_, ?_⟩
  · intro hres
    have he : evalEntry api ⟨strict, skip⟩ k
        (.objSpec (some sf) none none vOpt tOpt (some d) req nul) = .ok (some d) := by
      simp only [evalEntry, hres, isUndefined_undefined, if_true, defaultVal, hd,
        Bool.false_eq_true, if_false]
    rw [mapperx_decompose api ⟨strict, skip⟩ hpre,
      phase1_cons_set api ⟨strict, skip⟩ he rfl post st.1 st.2]
  · intro hres hnul hskip
    subst hskip
    have he : evalEntry api ⟨strict, false⟩ k
        (.objSpec (some sf) none none vOpt tOpt (some d) req nul) =
          .error ⟨k, some sf, "Field is null but not nullable", .null⟩ := by
      simp only [evalEntry, hres, isUndefined_null, isNull_null, hnul,
        Bool.false_eq_true, if_false, Bool.not_false, Bool.and_true, if_true]
    rw [mapperx_decompose api ⟨strict, false⟩ hpre,
      phase1_cons_err api he rfl rfl post st.1 st.2]
    rfl
  · intro f out rest m hf
    have hcmp : isComputedSpec
        (FieldSpec.objSpec none none (some f) none none (some d) req nul) = true := rfl
    rw [phase2, if_pos hcmp]
    have hstep : computedStep api true k
        (.objSpec none none (some f) none none (some d) req nul) out =
          .ok (setKey out k d) := by
      simp only [computedStep, hf, if_true, defaultVal, hd, Bool.false_eq_true,
        if_false]
    rw [hstep]

/-- C3 witness: the amended theorem at a source lacking the field entirely:
the destination field receives the default 7 and no error arises. -/
theorem c3_default_before_raising_witness :
    mapperx (JVal.obj [])
        [("k", .objSpec (some "f") none none none none (some (.num 7)) .undefined .undefined)]
        ⟨false, false⟩ =
      (phase1 (JVal.obj []) ⟨false, false⟩ [] (setKey [] "k" (.num 7)) []).bind
        (fun st2 => (phase2 (JVal.obj []) false st2.2 st2.1).map JVal.obj) :=
  (c3_default_before_raising (JVal.obj []) [] [] "k" "f" none none (.num 7)
    .undefined .undefined false false ([], []) rfl (phase1_nil _ _ _ _)).1 rfl

/-- C9: nested round-trip.  For a NestedSpec entry at key k whose from path
resolves to a non-null, non-undefined sub-object, given that recursively
mapping the sub-object with the nested schema and the same options returns w,
the engine commits exactly that w to the destination key and continues; the
committed accumulator holds w at k. -/
theorem c9_nested_round_trip (api : JVal) (pre post : Schema) (k sf : String)
    (sub : Schema) (dflt : Option JVal) (req nul : JVal)
    (opts : MapperxOptions) (sv w : JVal)
    (st : List (String × JVal) × List (String × FieldSpec))
    (hres : getDeepValue api sf = .ok sv)
    (hu : sv.isUndefined = false) (hn : sv.isNull = false)
    (hin : mapperx sv sub opts = .ok w)
    (hpre : phase1 api opts pre [] [] = .ok st) :
    mapperx api
        (pre ++ (k, .objSpec (some sf) (some sub) none none none dflt req nul) :: post)
        opts =
      (phase1 api opts post (setKey st.1 k w) st.2).bind (fun st2 =>
        (phase2 api opts.skipInvalid st2.2 st2.1).map JVal.obj) ∧
    jGet (setKey st.1 k w) k = some w := by
  have hin2 : ∃ sout, (phase1 sv opts sub [] []).bind
      (fun st2 => phase2 sv opts.skipInvalid st2.2 st2.1) = .ok sout ∧
        w = .obj sout := by
    rw [mapperx] at hin
    cases hp : phase1 sv opts sub [] [] with
    | error e => rw [hp] at hin; simp at hin
    | ok st2 =>
        rw [hp] at hin
        simp only [exc_bind_ok] at hin ⊢
        cases h2 : phase2 sv opts.skipInvalid st2.2 st2.1 with
        | error e => rw [h2] at hin; simp at hin
        | ok sout =>
            rw [h2] at hin
            simp only [exc_map_ok, Except.ok.injEq] at hin
            exact ⟨sout, rfl, hin.symm⟩
  obtain ⟨sout, hx, hw⟩ := hin2
  have he : evalEntry api opts k
      (.objSpec (some sf) (some sub) none none none dflt req nul) =
        .ok (some w) := by
    simp only [evalEntry, hres, hu, hn, Bool.or_self, Bool.false_eq_true,
      if_false, hx, hw]
  constructor
  · rw [mapperx_decompose api opts hpre,
      phase1_cons_set api opts he rfl post st.1 st.2]
  · exact jGet_setKey st.1 k w

/-- C9 witness: a nested entry at key n over the sub-object at a, nested
schema aliasing c to b, with the recursive map result committed at n. -/
theorem c9_nested_round_trip_witness :
    mapperx (JVal.obj [("a", .obj [("b", .num 3)])])
        [("n", .objSpec (some "a") (some [("c", .strSpec "b")]) none none none none .undefined .undefined)]
        ⟨false, false⟩ =
      (phase1 (JVal.obj [("a", .obj [("b", .num 3)])]) ⟨false, false⟩ []
          (setKey [] "n" (.obj [("c", .num 3)])) []).bind (fun st2 =>
        (phase2 (JVal.obj [("a", .obj [("b", .num 3)])]) false st2.2 st2.1).map JVal.obj) ∧
    jGet (setKey [] "n" (.obj [("c", .num 3)])) "n" = some (.obj [("c", .num 3)]) := by
  have he : evalEntry (JVal.obj [("b", .num 3)]) ⟨false, false⟩ "c"
      (.strSpec "b") = .ok (some (.num 3)) := by
    simp [evalEntry, jIndex, jGet, JVal.isUndefined]
  have hin : mapperx (.obj [("b", .num 3)]) [("c", .strSpec "b")] ⟨false, false⟩ =
      .ok (.obj [("c", .num 3)]) := by
    rw [mapperx, phase1_cons_set (JVal.obj [("b", .num 3)]) ⟨false, false⟩ he rfl [] [] [],
      phase1_nil]
    rfl
  exact c9_nested_round_trip (JVal.obj [("a", .obj [("b", .num 3)])]) [] [] "n" "a"
    [("c", .strSpec "b")] none .undefined .undefined ⟨false, false⟩
    (.obj [("b", .num 3)]) (.obj [("c", .num 3)]) ([], [])
    rfl rfl rfl hin (phase1_nil _ _ _ _)

/-- C10: a direct-alias field passes a present null source value through
unchecked: the value (null included) is assigned and no error arises, and
for a one-field schema the returned destination carries it; only an
undefined source value raises the field-undefined error.  The nullability
check does not apply to direct aliases (a direct alias has no nullable
setting at all). -/
theorem c10_direct_alias_null (api : JVal) (opts : MapperxOptions)
    (k a : String) :
    ((jIndex api a).isUndefined = false →
      (∀ (rest : Schema) (out comp),
        phase1 api opts ((k, .strSpec a) :: rest) out comp =
          phase1 api opts rest (setKey out k (jIndex api a)) comp) ∧
      mapperx api [(k, .strSpec a)] opts = .ok (.obj [(k, jIndex api a)])) ∧
    ((jIndex api a).isUndefined = true → opts.skipInvalid = false →
      ∀ (rest : Schema) (out comp),
        phase1 api opts ((k, .strSpec a) :: rest) out comp =
          .error ⟨k, some a, "Field is undefined in source", .undefined⟩) := by
  constructor
  · intro hnd
    have he : evalEntry api opts k (.strSpec a) = .ok (some (jIndex api a)) := by
      simp only [evalEntry, hnd, Bool.false_eq_true, if_false]
    constructor
    · intro rest out comp
      exact phase1_cons_set api opts he rfl rest out comp
    · rw [mapperx, phase1_cons_set api opts he rfl [] [] [], phase1_nil]
      rfl
  · intro hnd hskip rest out comp
    have he : evalEntry api opts k (.strSpec a) =
        .error ⟨k, some a, "Field is undefined in source", .undefined⟩ := by
      simp only [evalEntry, hnd, if_true]
    exact phase1_cons_err api he rfl hskip rest out comp

/-- C10 witness: a source whose x property is present and null: the alias
field y receives null and map succeeds; the same alias on an empty source is
undefined and raises the field-undefined error. -/
theorem c10_direct_alias_null_witness :
    mapperx (JVal.obj [("x", .null)]) [("y", .strSpec "x")] ⟨false, false⟩ =
      .ok (.obj [("y", .null)]) ∧
    phase1 (JVal.obj []) ⟨false, false⟩ [("y", .strSpec "x")] [] [] =
      .error ⟨"y", some "x", "Field is undefined in source", .undefined⟩ :=
  ⟨((c10_direct_alias_null (JVal.obj [("x", .null)]) ⟨false, false⟩ "y" "x").1 rfl).2,
   (c10_direct_alias_null (JVal.obj []) ⟨false, false⟩ "y" "x").2 rfl rfl [] [] []⟩
